import Mathlib

/-!
Shallow embedding of the SPANK plugin slurm-spank-oom-score-adj.

The plugin source is `src/slurm-spank-oom-score-adj.c`.  C strings are modelled
as `List Char`: the list holds the bytes in memory and the terminating NUL is
what a read past the end of the list returns (`cderef`).  A NUL inside the list
is read like the terminator, exactly as the C code would read it.
Machine integers are `Int`; `long` is the 64-bit type of the Linux targets the
plugin is built for, and `strtol` saturates at its bounds.
-/

namespace OomScoreAdj

/-! ## libc pieces used by the plugin -/

/-- C strings: the bytes before the terminating NUL. -/
abbrev CStr := List Char

/-- The C expression `*p` on a string pointer: the first byte, NUL at the end. -/
def cderef (p : CStr) : Char := p.headD (Char.ofNat 0)

/-- The C-locale `isspace`: space, `\t`, `\n`, `\v`, `\f`, `\r`. -/
def isspace (c : Char) : Bool :=
  c.toNat = 32 || (9 ≤ c.toNat && c.toNat ≤ 13)

/-- The C `isdigit`. -/
def isdigit (c : Char) : Bool :=
  48 ≤ c.toNat && c.toNat ≤ 57

/-- Value of a decimal digit character. -/
def digitVal (c : Char) : Nat := c.toNat - 48

/-- `LONG_MAX` of a 64-bit `long`. -/
def LONG_MAX : Int := 9223372036854775807

/-- `LONG_MIN` of a 64-bit `long`. -/
def LONG_MIN : Int := -9223372036854775808

/-- Accumulation of a run of decimal digits, most significant first. -/
def accDigits (ds : List Char) : Nat :=
  ds.foldl (fun acc c => acc * 10 + digitVal c) 0

/-- Optional sign of the subject sequence of `strtol`: `(negative, rest)`. -/
def strtolSign (s : CStr) : Bool × CStr :=
  match s with
  | c :: t => if c = '-' then (true, t) else if c = '+' then (false, t) else (false, s)
  | [] => (false, s)

/-- The libc call `strtol (nptr, &endptr, 10)`, as `(result, endptr)`: leading
white space is skipped, an optional sign is read, then the longest run of
decimal digits; without a digit no conversion is made (result 0, `endptr` is
`nptr`); a value outside `long` is replaced by `LONG_MIN` or `LONG_MAX`. -/
def strtol (nptr : CStr) : Int × CStr :=
  let s := nptr.dropWhile isspace
  let sg := strtolSign s
  let ds := sg.2.takeWhile isdigit
  let rest := sg.2.dropWhile isdigit
  if ds.isEmpty then (0, nptr)
  else
    let n : Int := (accDigits ds : Nat)
    let v : Int := if sg.1 then -n else n
    let l : Int := if v < LONG_MIN then LONG_MIN else if v > LONG_MAX then LONG_MAX else v
    (l, rest)

/-- The libc call `strncmp (s1, s2, n)`: difference of the first pair of
bytes that differ among the first `n`, 0 when none does before a NUL. -/
def strncmp : CStr → CStr → Nat → Int
  | _, _, 0 => 0
  | s1, s2, n + 1 =>
    if cderef s1 ≠ cderef s2 then ((cderef s1).toNat : Int) - ((cderef s2).toNat : Int)
    else if cderef s1 = Char.ofNat 0 then 0
    else strncmp s1.tail s2.tail n

/-- Character of a decimal digit. -/
def digitChar (d : Nat) : Char := Char.ofNat (48 + d)

/-- Decimal digits of a natural number, most significant first; the first
argument bounds the number of digits. -/
def natDigits : Nat → Nat → List Char
  | 0, _ => []
  | fuel + 1, n =>
    if n < 10 then [digitChar n]
    else natDigits fuel (n / 10) ++ [digitChar (n % 10)]

/-- What the conversions `%d` and `%ld` of `snprintf` print for an integer. -/
def fmtInt (i : Int) : CStr :=
  if i < 0 then '-' :: natDigits (i.natAbs + 1) i.natAbs
  else natDigits (i.natAbs + 1) i.natAbs

/-- The value of `errno` for a missing file (Linux `errno.h`). -/
def ENOENT : Nat := 2

/-- The value of `errno` for an interrupted system call (Linux `errno.h`). -/
def EINTR : Nat := 4

/-- The value of `errno` for a refused permission (Linux `errno.h`). -/
def EACCES : Nat := 13

/-- Outcome of a system call: the non-negative result, or -1 with `errno` set. -/
inductive SysResult where
  | ok (n : Nat)
  | err (errno : Nat)
  deriving DecidableEq, Repr

/-! ## `_str2value` -/

/-- The function `_str2value (str, p2int)`, as `(return value, *p2int after)`;
the second argument is the content of `*p2int` before the call. -/
def _str2value (str : CStr) (p2int : Int) : Int × Int :=
  let r := strtol str
  let l := r.1
  let p := r.2
  if cderef p ≠ Char.ofNat 0 || l < -1000 || l > 1000 then (-1, p2int)
  else (0, l)

/-! ## The numerals of the specification -/

/-- Positional value of a digit string: the sum of digit times power of ten. -/
def decimalValue : List Char → Nat
  | [] => 0
  | c :: t => digitVal c * 10 ^ t.length + decimalValue t

/-- A string matching `^-?[0-9]+$`. -/
def matchesNumeral (s : CStr) : Bool :=
  match s with
  | c :: t =>
    if c = '-' then !t.isEmpty && t.all isdigit
    else (c :: t).all isdigit
  | [] => false

/-- Numeric value of a string matching `^-?[0-9]+$`. -/
def numeralValue (s : CStr) : Int :=
  match s with
  | c :: t => if c = '-' then -(decimalValue t : Int) else (decimalValue (c :: t) : Int)
  | [] => 0

/-- The strings `strtol` converts whole, with their value: white space, an
optional sign `+` or `-`, then one or more decimal digits. -/
def SignedNumeral (s : CStr) (v : Int) : Prop :=
  ∃ ws sg ds : List Char, s = ws ++ (sg ++ ds) ∧ ws.all isspace = true ∧
    (sg = [] ∨ sg = ['+'] ∨ sg = ['-']) ∧ ds ≠ [] ∧ ds.all isdigit = true ∧
    v = if sg = ['-'] then -(decimalValue ds : Int) else (decimalValue ds : Int)

/-- A signed numeral in the sense of `strtol` whose value lies in [-1000, 1000]. -/
def AcceptedNumeral (s : CStr) : Prop :=
  ∃ v : Int, SignedNumeral s v ∧ -1000 ≤ v ∧ v ≤ 1000

/-! ## The host and the operating system, as seen by the plugin -/

/-- The contexts of `spank_context ()` (`slurm/spank.h`). -/
inductive Context where
  | S_CTX_ERROR
  | S_CTX_LOCAL
  | S_CTX_REMOTE
  | S_CTX_ALLOCATOR
  | S_CTX_SLURMD
  | S_CTX_JOB_SCRIPT
  deriving DecidableEq, Repr

/-- Severity of a message handed to the host's logging functions. -/
inductive Severity where
  | error
  | info
  | verbose
  | debug
  deriving DecidableEq, Repr

/-- Argument of a log format. -/
inductive FmtArg where
  | s (x : CStr)
  | d (x : Int)
  deriving DecidableEq, Repr

/-- What the plugin does to its environment, in order. -/
inductive Event where
  | log (sev : Severity) (fmt : String) (args : List FmtArg)
  | spank_get_item_task_global_id
  | getpid
  | open_wronly (path : CStr) (res : SysResult)
  | write (fd : Nat) (buf : CStr) (res : SysResult)
  | close (fd : Nat)
  deriving DecidableEq, Repr

/-- The operating system as `_set_oom_score_adj` meets it: the outcome of
`open (path, O_WRONLY)` for each path, and the outcomes of the successive
calls of `write`. -/
structure Sys where
  open_wronly : CStr → SysResult
  writes : List SysResult

/-- What the host answers to the per-task hook: `S_TASK_GLOBAL_ID` and the
result of `getpid ()`. -/
structure Task where
  taskid : Int
  pid : Int

/-! ## `slurm_spank_init` -/

/-- Outcome of `slurm_spank_init`: the return value, the static `value`
afterwards and the messages logged. -/
structure InitResult where
  ret : Int
  value : Int
  trace : List Event
  deriving DecidableEq, Repr

/-- One turn of the `for` loop of `slurm_spank_init` on `av[i]`; the state is
the static `value` and the messages logged so far. -/
def init_arg (st : Int × List Event) (a : CStr) : Int × List Event :=
  if strncmp "oom_score_adj=".toList a 14 = 0 then
    let optarg := a.drop 14
    let r := _str2value optarg st.1
    if r.1 < 0 then
      (r.2, st.2 ++ [Event.log Severity.error "oom_score_adj: Ignoring invalid value: \'%s\'"
        [FmtArg.s a]])
    else (r.2, st.2)
  else
    (st.1, st.2 ++ [Event.log Severity.error "oom_score_adj: Invalid value: %s" [FmtArg.s a]])

/-- The hook `slurm_spank_init (sp, ac, av)`: `ctx` is what `spank_context ()`
answers, `remote` what `spank_remote (sp)` answers, `value` the static `value`
before the call. -/
def slurm_spank_init (ctx : Context) (remote : Int) (av : List CStr) (value : Int) :
    InitResult :=
  if ctx = Context.S_CTX_ALLOCATOR then ⟨0, value, []⟩
  else
    let st := av.foldl init_arg (value, [])
    if remote = 0 then
      ⟨0, st.1, st.2 ++ [Event.log Severity.verbose "oom_score_adj: value = %d" [FmtArg.d st.1]]⟩
    else ⟨0, st.1, st.2⟩

/-- The value an argument of `slurm_spank_init` stores: that of its value part
when it starts with `oom_score_adj=` and `_str2value` accepts the rest. -/
def argValue (a : CStr) : Option Int :=
  if strncmp "oom_score_adj=".toList a 14 = 0 then
    if (_str2value (a.drop 14) 0).1 < 0 then none else some (_str2value (a.drop 14) 0).2
  else none

/-! ## `_set_oom_score_adj` -/

/-- The path `snprintf` formats from `"/proc/%ld/oom_score_adj"`; the pid is
printed as the integer it is. -/
def oom_score_adj_file (pid : Int) : CStr :=
  "/proc/".toList ++ fmtInt pid ++ "/oom_score_adj".toList

/-- The loop `while ((write (fd, buf, strlen (buf)) < 0) && (errno == EINTR));`
run against the outcomes of the successive calls of `write`: the calls made,
or `none` when every outcome listed was an interruption. -/
def write_retry (fd : Nat) (buf : CStr) : List SysResult → Option (List Event)
  | [] => none
  | r :: rs =>
    match r with
    | SysResult.err e =>
      if e = EINTR then (write_retry fd buf rs).map (fun t => Event.write fd buf r :: t)
      else some [Event.write fd buf r]
    | SysResult.ok _ => some [Event.write fd buf r]

/-- The function `_set_oom_score_adj (pid, value)`: the return value and the
calls made, or `none` when the retry loop has not ended within `sys.writes`. -/
def _set_oom_score_adj (sys : Sys) (pid : Int) (value : Int) : Option (Int × List Event) :=
  let file := oom_score_adj_file pid
  if file.length ≥ 128 then some (-1, [])
  else
    match sys.open_wronly file with
    | SysResult.err errno =>
      if errno = ENOENT then
        some (-1, [Event.open_wronly file (SysResult.err errno),
          Event.log Severity.debug "%s doesn\'t exist: %m" [FmtArg.s file]])
      else
        some (-1, [Event.open_wronly file (SysResult.err errno),
          Event.log Severity.error "failed to open %s, error %d: %m"
            [FmtArg.s file, FmtArg.d errno]])
    | SysResult.ok fd =>
      let oom_score_adj_value := fmtInt value
      if oom_score_adj_value.length ≥ 16 then
        some (-1, [Event.open_wronly file (SysResult.ok fd), Event.close fd])
      else
        match write_retry fd oom_score_adj_value sys.writes with
        | none => none
        | some t => some (0, Event.open_wronly file (SysResult.ok fd) :: (t ++ [Event.close fd]))

/-! ## `slurm_spank_task_init_privileged` -/

/-- The hook `slurm_spank_task_init_privileged (sp, ac, av)` with the static
`value` as last argument: the return value and what was done, or `none` when
the retry loop of the writer has not ended within `sys.writes`. -/
def slurm_spank_task_init_privileged (sys : Sys) (task : Task) (value : Int) :
    Option (Int × List Event) :=
  if value = 0 then some (0, [])
  else
    let pre := [Event.spank_get_item_task_global_id, Event.getpid,
      Event.log Severity.info "set oom_score_adj of task%d (pid %ld) to %ld"
        [FmtArg.d task.taskid, FmtArg.d task.pid, FmtArg.d value]]
    match _set_oom_score_adj sys task.pid value with
    | none => none
    | some (r, t) =>
      if r < 0 then
        some (-1, pre ++ t ++
          [Event.log Severity.error "oom_score_adj: unable to set oom_score_adj: %m" []])
      else some (0, pre ++ t)

/-! ## Lemmas on the libc pieces -/

theorem foldl_digits (ds : List Char) (acc : Nat) :
    ds.foldl (fun a c => a * 10 + digitVal c) acc = acc * 10 ^ ds.length + decimalValue ds := by
  induction ds generalizing acc with
  | nil => simp [decimalValue]
  | cons c t ih =>
    simp only [List.foldl_cons, List.length_cons, decimalValue, ih]
    ring

theorem accDigits_eq (ds : List Char) : accDigits ds = decimalValue ds := by
  simp [accDigits, foldl_digits]

theorem takeWhile_all {p : Char → Bool} (l : List Char) (h : l.all p = true) :
    l.takeWhile p = l := by
  induction l with
  | nil => rfl
  | cons c t ih =>
    simp only [List.all_cons, Bool.and_eq_true] at h
    simp [List.takeWhile_cons, h.1, ih h.2]

theorem dropWhile_all {p : Char → Bool} (l : List Char) (h : l.all p = true) :
    l.dropWhile p = [] := by
  induction l with
  | nil => rfl
  | cons c t ih =>
    simp only [List.all_cons, Bool.and_eq_true] at h
    simp [List.dropWhile_cons, h.1, ih h.2]

theorem isspace_of_isdigit {c : Char} (h : isdigit c = true) : isspace c = false := by
  simp only [isdigit, Bool.and_eq_true, decide_eq_true_eq] at h
  simp only [isspace, Bool.or_eq_false_iff, decide_eq_false_iff_not, Bool.and_eq_false_iff]
  omega

theorem strtol_digits (c : Char) (t : List Char) (h : (c :: t).all isdigit = true) :
    strtol (c :: t) =
      ((if (decimalValue (c :: t) : Int) > LONG_MAX then LONG_MAX else decimalValue (c :: t)),
        []) := by
  have hc : isdigit c = true := by
    simp only [List.all_cons, Bool.and_eq_true] at h
    exact h.1
  have hm : c ≠ '-' := by
    intro e
    rw [e] at hc
    exact absurd hc (by decide)
  have hp : c ≠ '+' := by
    intro e
    rw [e] at hc
    exact absurd hc (by decide)
  have hs : (c :: t).dropWhile isspace = c :: t := by
    simp [List.dropWhile_cons, isspace_of_isdigit hc]
  have hv : ¬ (((decimalValue (c :: t) : Nat) : Int) < LONG_MIN) := by
    simp only [LONG_MIN]
    omega
  simp only [strtol, hs, strtolSign, hm, hp, if_false, takeWhile_all _ h, dropWhile_all _ h,
    List.isEmpty_cons, Bool.false_eq_true, accDigits_eq, hv]

theorem strtol_minus_digits (t : List Char) (hne : t ≠ []) (h : t.all isdigit = true) :
    strtol ('-' :: t) =
      ((if -(decimalValue t : Int) < LONG_MIN then LONG_MIN else -(decimalValue t : Int)),
        []) := by
  have hs : ('-' :: t).dropWhile isspace = '-' :: t := by
    have : isspace '-' = false := by decide
    simp [List.dropWhile_cons, this]
  have he : t.isEmpty = false := by
    cases t with
    | nil => exact absurd rfl hne
    | cons _ _ => rfl
  have hv : ¬ (-((decimalValue t : Nat) : Int) > LONG_MAX) := by
    simp only [LONG_MAX]
    omega
  simp only [strtol, hs, strtolSign, if_true, takeWhile_all _ h, dropWhile_all _ h, he,
    Bool.false_eq_true, if_false, accDigits_eq, hv]

theorem strtol_signed (ws sg ds : List Char) (hws : ws.all isspace = true)
    (hsg : sg = [] ∨ sg = ['+'] ∨ sg = ['-']) (hne : ds ≠ []) (hds : ds.all isdigit = true) :
    strtol (ws ++ (sg ++ ds)) =
      ((if sg = ['-'] then
          (if -(decimalValue ds : Int) < LONG_MIN then LONG_MIN else -(decimalValue ds : Int))
        else (if (decimalValue ds : Int) > LONG_MAX then LONG_MAX else (decimalValue ds : Int))),
        []) := by
  obtain ⟨c, t, rfl⟩ := List.exists_cons_of_ne_nil hne
  have hc : isdigit c = true := by
    simp only [List.all_cons, Bool.and_eq_true] at hds
    exact hds.1
  have hm : c ≠ '-' := by
    intro e
    rw [e] at hc
    exact absurd hc (by decide)
  have hp : c ≠ '+' := by
    intro e
    rw [e] at hc
    exact absurd hc (by decide)
  have hws2 : ∀ a ∈ ws, isspace a = true := by
    simpa [List.all_eq_true] using hws
  have he : (c :: t).isEmpty = false := rfl
  have hlo : ¬ (((decimalValue (c :: t) : Nat) : Int) < LONG_MIN) := by
    simp only [LONG_MIN]
    omega
  have hhi : ¬ (-((decimalValue (c :: t) : Nat) : Int) > LONG_MAX) := by
    simp only [LONG_MAX]
    omega
  rcases hsg with rfl | rfl | rfl
  · have hs : (ws ++ ([] ++ c :: t)).dropWhile isspace = c :: t := by
      rw [List.dropWhile_append_of_pos hws2]
      simp [List.dropWhile_cons, isspace_of_isdigit hc]
    simp only [strtol, hs, strtolSign, hm, hp, if_false, takeWhile_all _ hds,
      dropWhile_all _ hds, he, Bool.false_eq_true, accDigits_eq, hlo]
    simp
  · have hs : (ws ++ (['+'] ++ c :: t)).dropWhile isspace = '+' :: c :: t := by
      rw [List.dropWhile_append_of_pos hws2]
      have : isspace '+' = false := by decide
      simp [List.dropWhile_cons, this]
    have h1 : ('+' : Char) ≠ '-' := by decide
    simp only [strtol, hs, strtolSign, h1, if_false, if_true, takeWhile_all _ hds,
      dropWhile_all _ hds, he, Bool.false_eq_true, accDigits_eq, hlo]
    simp
  · have hs : (ws ++ (['-'] ++ c :: t)).dropWhile isspace = '-' :: c :: t := by
      rw [List.dropWhile_append_of_pos hws2]
      have : isspace '-' = false := by decide
      simp [List.dropWhile_cons, this]
    simp only [strtol, hs, strtolSign, if_true, takeWhile_all _ hds,
      dropWhile_all _ hds, he, Bool.false_eq_true, if_false, accDigits_eq, hhi]

/-- Every signed numeral with a value in range is accepted with that value. -/
theorem str2value_of_signedNumeral (s : CStr) (v out : Int) (h : SignedNumeral s v)
    (hlo : -1000 ≤ v) (hhi : v ≤ 1000) : _str2value s out = (0, v) := by
  obtain ⟨ws, sg, ds, rfl, hws, hsg, hne, hds, hv⟩ := h
  simp only [_str2value, strtol_signed ws sg ds hws hsg hne hds, cderef, List.headD_nil]
  by_cases hm : sg = ['-']
  · simp only [hm, if_true] at hv ⊢
    have h1 : ¬ (-(decimalValue ds : Int) < LONG_MIN) := by
      simp only [LONG_MIN]
      omega
    simp only [h1, if_false, ne_eq, not_true_eq_false, decide_False, Bool.false_or,
      Bool.or_eq_true, decide_eq_true_eq]
    rw [if_neg (by omega), hv]
  · simp only [hm, if_false] at hv ⊢
    have h1 : ¬ ((decimalValue ds : Int) > LONG_MAX) := by
      simp only [LONG_MAX]
      omega
    simp only [h1, if_false, ne_eq, not_true_eq_false, decide_False, Bool.false_or,
      Bool.or_eq_true, decide_eq_true_eq]
    rw [if_neg (by omega), hv]

theorem strtolSign_spec (b : CStr) :
    ∃ sg : List Char, (sg = [] ∨ sg = ['+'] ∨ sg = ['-']) ∧ b = sg ++ (strtolSign b).2 ∧
      ((strtolSign b).1 = true ↔ sg = ['-']) := by
  cases b with
  | nil => exact ⟨[], Or.inl rfl, rfl, by simp [strtolSign]⟩
  | cons c t =>
    by_cases hm : c = '-'
    · subst hm
      exact ⟨['-'], Or.inr (Or.inr rfl), by simp [strtolSign], by simp [strtolSign]⟩
    · by_cases hp : c = '+'
      · subst hp
        refine ⟨['+'], Or.inr (Or.inl rfl), ?_, ?_⟩
        · simp [strtolSign]
        · simp only [strtolSign, hm, if_false, if_true]
          simp
      · exact ⟨[], Or.inl rfl, by simp [strtolSign, hm, hp], by simp [strtolSign, hm, hp]⟩

/-- Shape of every call of `strtol`: either no conversion is made, or the input
splits into white space, sign, digits and the unread rest. -/
theorem strtol_shape (s : CStr) :
    strtol s = (0, s) ∨
    ∃ ws sg ds rest : List Char, s = ws ++ (sg ++ (ds ++ rest)) ∧ ws.all isspace = true ∧
      (sg = [] ∨ sg = ['+'] ∨ sg = ['-']) ∧ ds ≠ [] ∧ ds.all isdigit = true ∧
      strtol s =
        ((if (if sg = ['-'] then -(decimalValue ds : Int) else (decimalValue ds : Int)) < LONG_MIN
          then LONG_MIN
          else if (if sg = ['-'] then -(decimalValue ds : Int) else (decimalValue ds : Int))
              > LONG_MAX
            then LONG_MAX
            else (if sg = ['-'] then -(decimalValue ds : Int) else (decimalValue ds : Int))),
          rest) := by
  obtain ⟨sg, hsg, hb, hneg⟩ := strtolSign_spec (s.dropWhile isspace)
  by_cases he : ((strtolSign (s.dropWhile isspace)).2.takeWhile isdigit).isEmpty = true
  · left
    simp only [strtol, he, if_true]
  · right
    refine ⟨s.takeWhile isspace, sg, (strtolSign (s.dropWhile isspace)).2.takeWhile isdigit,
      (strtolSign (s.dropWhile isspace)).2.dropWhile isdigit, ?_, List.all_takeWhile, hsg, ?_,
      List.all_takeWhile, ?_⟩
    · rw [List.takeWhile_append_dropWhile, ← hb, List.takeWhile_append_dropWhile]
    · intro e
      rw [e] at he
      exact he rfl
    · by_cases hm : sg = ['-']
      · have h1 : (strtolSign (s.dropWhile isspace)).1 = true := hneg.2 hm
        simp only [strtol, he, h1, hm, if_true, accDigits_eq]
        simp
      · have h1 : ¬ ((strtolSign (s.dropWhile isspace)).1 = true) := fun h => hm (hneg.1 h)
        simp only [strtol, he, h1, hm, if_false, accDigits_eq]
        simp

theorem cderef_eq_nul {p : CStr} (hn : ∀ c ∈ p, c ≠ Char.ofNat 0)
    (h : cderef p = Char.ofNat 0) : p = [] := by
  cases p with
  | nil => rfl
  | cons c t =>
    simp only [cderef, List.headD_cons] at h
    exact absurd h (hn c (List.mem_cons_self c t))

/-- The result of `_str2value` is either failure with the output untouched, or
success with a value in range stored. -/
theorem str2value_cases (s : CStr) (out : Int) :
    _str2value s out = (-1, out) ∨
    (_str2value s out = (0, (strtol s).1) ∧ cderef (strtol s).2 = Char.ofNat 0 ∧
      -1000 ≤ (strtol s).1 ∧ (strtol s).1 ≤ 1000) := by
  by_cases h : (cderef (strtol s).2 ≠ Char.ofNat 0 || (strtol s).1 < -1000 ||
      (strtol s).1 > 1000) = true
  · left
    simp only [_str2value, h, if_true]
  · right
    have h2 := h
    simp only [Bool.or_eq_true, decide_eq_true_eq, not_or, ne_eq, not_not, not_lt] at h2
    refine ⟨?_, h2.1.1, ?_, ?_⟩
    · simp only [_str2value, h, if_false]
      simp
    · have := h2.1.2
      omega
    · have := h2.2
      omega

/-- A NUL-free, non-empty string that `_str2value` accepts is a signed numeral
in range. -/
theorem acceptedNumeral_of_str2value (s : CStr) (out : Int) (hne : s ≠ [])
    (hn : ∀ c ∈ s, c ≠ Char.ofNat 0) (h : (_str2value s out).1 = 0) : AcceptedNumeral s := by
  rcases str2value_cases s out with hf | ⟨_, hp, hlo, hhi⟩
  · rw [hf] at h
    simp at h
  · rcases strtol_shape s with h0 | ⟨ws, sg, ds, rest, hs, hws, hsg, hds, hdd, hv⟩
    · rw [h0] at hp
      exact absurd (cderef_eq_nul hn hp) hne
    · rw [hv] at hp hlo hhi
      simp only at hp hlo hhi
      have hr : rest = [] := by
        apply cderef_eq_nul _ hp
        intro c hc
        apply hn
        rw [hs]
        simp [hc]
      subst hr
      refine ⟨if sg = ['-'] then -(decimalValue ds : Int) else (decimalValue ds : Int),
        ⟨ws, sg, ds, by simpa using hs, hws, hsg, hds, hdd, rfl⟩, ?_, ?_⟩
      · simp only [LONG_MIN, LONG_MAX] at hlo hhi
        split_ifs at hlo hhi <;> omega
      · simp only [LONG_MIN, LONG_MAX] at hlo hhi
        split_ifs at hlo hhi <;> omega

theorem char_eq_of_toNat_eq {c d : Char} (h : c.toNat = d.toNat) : c = d := by
  rw [← Char.ofNat_toNat c, ← Char.ofNat_toNat d, h]

/-- For a literal without NUL, `strncmp` over its whole length returns 0 exactly
on the strings that start with it. -/
theorem strncmp_eq_zero_iff (l a : CStr) (hl : ∀ c ∈ l, c ≠ Char.ofNat 0) :
    strncmp l a l.length = 0 ↔ l <+: a := by
  induction l generalizing a with
  | nil => simp [strncmp]
  | cons c t ih =>
    have hc : c ≠ Char.ofNat 0 := hl c (List.mem_cons_self c t)
    have ht : ∀ x ∈ t, x ≠ Char.ofNat 0 := fun x hx => hl x (List.mem_cons_of_mem c hx)
    have hsub : ∀ d : Char, c ≠ d → ((c.toNat : Int) - (d.toNat : Int) = 0 ↔ False) := by
      intro d hcd
      constructor
      · intro h
        exact hcd (char_eq_of_toNat_eq (by omega))
      · exact False.elim
    cases a with
    | nil =>
      simp only [List.length_cons, strncmp, cderef, List.headD_cons, List.headD_nil, ne_eq, hc,
        not_false_eq_true, if_true, hsub _ hc]
      simp
    | cons d u =>
      by_cases hcd : c = d
      · subst hcd
        simp only [List.length_cons, strncmp, cderef, List.headD_cons, ne_eq, not_true_eq_false,
          if_false, hc, List.tail_cons, ih u ht, List.cons_prefix_cons, true_and]
      · simp only [List.length_cons, strncmp, cderef, List.headD_cons, ne_eq, hcd,
          not_false_eq_true, if_true, hsub _ hcd, List.cons_prefix_cons, false_and]

theorem strncmp_option (a : CStr) :
    strncmp "oom_score_adj=".toList a 14 = 0 ↔ "oom_score_adj=".toList <+: a :=
  strncmp_eq_zero_iff "oom_score_adj=".toList a (by decide)

/-! ## Claims on `_str2value` -/

/-- C1: on every string matching `^-?[0-9]+$` whose numeric value n lies in
[-1000, 1000], `_str2value` returns 0 and stores exactly n; in particular on
"0", "-1000" and "1000". -/
theorem str2value_accepts_numeral (s : CStr) (out : Int)
    (hm : matchesNumeral s = true)
    (hlo : -1000 ≤ numeralValue s) (hhi : numeralValue s ≤ 1000) :
    _str2value s out = (0, numeralValue s) := by
  cases s with
  | nil => simp [matchesNumeral] at hm
  | cons c t =>
    by_cases hc : c = '-'
    · subst hc
      simp only [matchesNumeral, if_true, Bool.and_eq_true, Bool.not_eq_true'] at hm
      have hne : t ≠ [] := by
        intro e
        rw [e] at hm
        simp at hm
      simp only [numeralValue, if_true] at hlo hhi ⊢
      have h1 : ¬ (-(decimalValue t : Int) < LONG_MIN) := by
        simp only [LONG_MIN]
        omega
      simp only [_str2value, strtol_minus_digits t hne hm.2, h1, if_false, cderef, List.headD_nil]
      simp only [ne_eq, not_true_eq_false, decide_False, Bool.false_or, Bool.or_eq_true,
        decide_eq_true_eq]
      rw [if_neg (by omega)]
    · simp only [matchesNumeral, hc, if_false] at hm
      simp only [numeralValue, hc, if_false] at hlo hhi ⊢
      have h1 : ¬ ((decimalValue (c :: t) : Int) > LONG_MAX) := by
        simp only [LONG_MAX]
        omega
      simp only [_str2value, strtol_digits c t hm, h1, if_false, cderef, List.headD_nil]
      simp only [ne_eq, not_true_eq_false, decide_False, Bool.false_or, Bool.or_eq_true,
        decide_eq_true_eq]
      rw [if_neg (by omega)]

/-- Witness of C1 at the boundary numeral "-1000". -/
theorem str2value_accepts_numeral_witness :
    _str2value "-1000".toList 7 = (0, numeralValue "-1000".toList) ∧
      numeralValue "-1000".toList = -1000 :=
  ⟨str2value_accepts_numeral "-1000".toList 7 (by decide) (by decide) (by decide), by decide⟩

/-- C2 as stated fails: strings outside `^-?[0-9]+$` are accepted, namely a
numeral with a leading `+`, a numeral after white space, and the empty string. -/
theorem str2value_accepts_outside_numerals :
    (matchesNumeral "+5".toList = false ∧ _str2value "+5".toList 0 = (0, 5)) ∧
    (matchesNumeral " 5".toList = false ∧ _str2value " 5".toList 0 = (0, 5)) ∧
    (matchesNumeral "".toList = false ∧ _str2value "".toList 7 = (0, 0)) := by
  decide

/-- C2, amended: every non-empty C string (no NUL inside) that is not of the
form white space, optional sign `+` or `-`, one or more digits with a value in
[-1000, 1000] makes `_str2value` return -1, the output left as it was. -/
theorem str2value_rejects (s : CStr) (out : Int) (hne : s ≠ [])
    (hn : ∀ c ∈ s, c ≠ Char.ofNat 0) (h : ¬ AcceptedNumeral s) :
    _str2value s out = (-1, out) := by
  rcases str2value_cases s out with hf | ⟨h0, _, _, _⟩
  · exact hf
  · exact absurd (acceptedNumeral_of_str2value s out hne hn (by rw [h0])) h

/-- Witness of the amended C2 at "12x". -/
theorem str2value_rejects_witness :
    "12x".toList ≠ [] ∧ ¬ AcceptedNumeral "12x".toList ∧
      _str2value "12x".toList 7 = (-1, 7) := by
  have hacc : ¬ AcceptedNumeral "12x".toList := by
    rintro ⟨v, hv, hlo, hhi⟩
    have h1 := str2value_of_signedNumeral "12x".toList v 0 hv hlo hhi
    have h2 : _str2value "12x".toList 0 = (-1, 0) := by decide
    rw [h2] at h1
    simp at h1
  exact ⟨by decide, hacc, str2value_rejects "12x".toList 7 (by decide) (by decide) hacc⟩

/-! ## Lemmas on `slurm_spank_init` -/

theorem str2value_out (s : CStr) (out : Int) :
    _str2value s out =
      if (_str2value s 0).1 < 0 then (-1, out) else (0, (_str2value s 0).2) := by
  rcases str2value_cases s 0 with h0 | ⟨h0, hp, hlo, hhi⟩
  · have hc : (cderef (strtol s).2 ≠ Char.ofNat 0 || (strtol s).1 < -1000 ||
        (strtol s).1 > 1000) = true := by
      by_contra hcon
      simp only [_str2value, hcon, if_false] at h0
      simp at h0
    rw [h0]
    simp only [_str2value, hc, if_true]
    simp
  · rcases str2value_cases s out with h1 | ⟨h1, _, _, _⟩
    · have hc : (cderef (strtol s).2 ≠ Char.ofNat 0 || (strtol s).1 < -1000 ||
          (strtol s).1 > 1000) = true := by
        by_contra hcon
        simp only [_str2value, hcon, if_false] at h1
        simp at h1
      simp only [_str2value, hc, if_true] at h0
      simp at h0
    · rw [h0, h1]
      simp

theorem init_arg_value (v : Int) (t : List Event) (a : CStr) :
    (init_arg (v, t) a).1 = (argValue a).getD v := by
  by_cases hp : strncmp "oom_score_adj=".toList a 14 = 0
  · simp only [init_arg, argValue, hp, if_true]
    rw [str2value_out (a.drop 14) v]
    by_cases hr : (_str2value (a.drop 14) 0).1 < 0
    · simp [hr]
    · simp [hr]
  · simp only [init_arg, argValue, hp, if_false]
    rfl

theorem foldl_init_arg_value (av : List CStr) (v : Int) (t : List Event) :
    (av.foldl init_arg (v, t)).1 = av.foldl (fun w a => (argValue a).getD w) v := by
  induction av generalizing v t with
  | nil => rfl
  | cons a rest ih =>
    simp only [List.foldl_cons]
    have h := init_arg_value v t a
    rw [← h]
    exact ih (init_arg (v, t) a).1 (init_arg (v, t) a).2

theorem init_value (ctx : Context) (remote : Int) (av : List CStr) (v : Int)
    (hctx : ctx ≠ Context.S_CTX_ALLOCATOR) :
    (slurm_spank_init ctx remote av v).value = av.foldl (fun w a => (argValue a).getD w) v := by
  simp only [slurm_spank_init, hctx, if_false]
  split_ifs <;> exact foldl_init_arg_value av v []

theorem init_ret (ctx : Context) (remote : Int) (av : List CStr) (v : Int) :
    (slurm_spank_init ctx remote av v).ret = 0 := by
  simp only [slurm_spank_init]
  split_ifs <;> rfl

theorem foldl_argValue_last (av : List CStr) (v : Int) :
    av.foldl (fun w a => (argValue a).getD w) v = ((av.filterMap argValue).getLast?).getD v := by
  induction av using List.reverseRecOn with
  | nil => rfl
  | append_singleton pre a ih =>
    rw [List.foldl_append, List.filterMap_append]
    simp only [List.foldl_cons, List.foldl_nil, ih]
    cases ha : argValue a with
    | none => simp [List.filterMap_cons, ha]
    | some x => simp [List.filterMap_cons, ha]

theorem argValue_range (a : CStr) (x : Int) (h : argValue a = some x) :
    -1000 ≤ x ∧ x ≤ 1000 := by
  by_cases hp : strncmp "oom_score_adj=".toList a 14 = 0
  · simp only [argValue, hp, if_true] at h
    rcases str2value_cases (a.drop 14) 0 with h0 | ⟨h0, _, hlo, hhi⟩
    · rw [h0] at h
      simp at h
    · rw [h0] at h
      simp only [Option.ite_none_left_eq_some, Option.some.injEq] at h
      rw [← h.2]
      exact ⟨hlo, hhi⟩
  · simp only [argValue, hp, if_false] at h
    exact absurd h (by simp)

theorem foldl_argValue_range (av : List CStr) (v : Int) (hlo : -1000 ≤ v) (hhi : v ≤ 1000) :
    -1000 ≤ av.foldl (fun w a => (argValue a).getD w) v ∧
      av.foldl (fun w a => (argValue a).getD w) v ≤ 1000 := by
  induction av generalizing v with
  | nil => exact ⟨hlo, hhi⟩
  | cons a rest ih =>
    simp only [List.foldl_cons]
    cases ha : argValue a with
    | none => simpa using ih v hlo hhi
    | some x =>
      have hx := argValue_range a x ha
      simpa using ih x hx.1 hx.2

theorem argValue_eq_some_iff (a : CStr) (x v : Int) :
    argValue a = some x ↔
      (strncmp "oom_score_adj=".toList a 14 = 0 ∧ _str2value (a.drop 14) v = (0, x)) := by
  by_cases hp : strncmp "oom_score_adj=".toList a 14 = 0
  · simp only [argValue, hp, if_true, true_and]
    rw [str2value_out (a.drop 14) v]
    by_cases hr : (_str2value (a.drop 14) 0).1 < 0
    · simp [hr]
    · simp [hr]
  · simp only [argValue, hp, if_false, false_and]
    simp

theorem argValue_eq_none_of_bad (a : CStr) (v : Int)
    (h : strncmp "oom_score_adj=".toList a 14 ≠ 0 ∨ (_str2value (a.drop 14) v).1 = -1) :
    argValue a = none := by
  cases hx : argValue a with
  | none => rfl
  | some x =>
    have h2 := (argValue_eq_some_iff a x v).1 hx
    rcases h with h | h
    · exact absurd h2.1 h
    · rw [h2.2] at h
      simp at h

/-! ## Claims on `slurm_spank_init` -/

/-- C3 as stated fails: with two valid arguments of different values the value
kept after init is the second one, not the first that parsed. -/
theorem init_first_value_overwritten :
    argValue "oom_score_adj=5".toList = some 5 ∧
    (slurm_spank_init Context.S_CTX_REMOTE 1
      ["oom_score_adj=5".toList, "oom_score_adj=7".toList] 0).value = 7 ∧
    (slurm_spank_init Context.S_CTX_REMOTE 1
      ["oom_score_adj=5".toList, "oom_score_adj=7".toList] 0).value ≠ 5 := by
  decide

/-- C3, amended: outside the allocator context the value kept after
`slurm_spank_init` is that of the LAST argument that parsed successfully (the
value before the call when none did): every later successful argument
overwrites the stored value.  An argument parses successfully when it starts
with `oom_score_adj=` and `_str2value` returns 0 on the rest. -/
theorem init_last_value_wins (ctx : Context) (remote : Int) (av : List CStr) (v0 : Int)
    (hctx : ctx ≠ Context.S_CTX_ALLOCATOR) :
    (slurm_spank_init ctx remote av v0).value = ((av.filterMap argValue).getLast?).getD v0 ∧
    (∀ (a : CStr) (x v : Int), argValue a = some x ↔
      (strncmp "oom_score_adj=".toList a 14 = 0 ∧ _str2value (a.drop 14) v = (0, x))) := by
  refine ⟨?_, argValue_eq_some_iff⟩
  rw [init_value ctx remote av v0 hctx, foldl_argValue_last]

/-- Witness of the amended C3: four arguments, two of them valid. -/
theorem init_last_value_wins_witness :
    (slurm_spank_init Context.S_CTX_REMOTE 1
      ["oom_score_adj=5".toList, "junk".toList, "oom_score_adj=7".toList,
        "oom_score_adj=5000".toList] 0).value = 7 := by
  have h := (init_last_value_wins Context.S_CTX_REMOTE 1
    ["oom_score_adj=5".toList, "junk".toList, "oom_score_adj=7".toList,
      "oom_score_adj=5000".toList] 0 (by decide)).1
  rw [h]
  decide

/-- C4: `slurm_spank_init` returns 0 on every input; an argument that does not
start with `oom_score_adj=`, or whose value part `_str2value` rejects, leaves
the stored value as it was before that argument, and the arguments after it are
processed as if it were absent; init with `oom_score_adj=5000` leaves 0. -/
theorem init_ignores_bad_argument :
    (∀ (ctx : Context) (remote : Int) (av : List CStr) (v0 : Int),
      (slurm_spank_init ctx remote av v0).ret = 0) ∧
    (∀ (a : CStr) (v : Int) (t : List Event),
      (strncmp "oom_score_adj=".toList a 14 ≠ 0 ∨ (_str2value (a.drop 14) v).1 = -1) →
      (init_arg (v, t) a).1 = v) ∧
    (∀ (ctx : Context) (remote : Int) (pre post : List CStr) (a : CStr) (v0 v : Int),
      (strncmp "oom_score_adj=".toList a 14 ≠ 0 ∨ (_str2value (a.drop 14) v).1 = -1) →
      (slurm_spank_init ctx remote (pre ++ a :: post) v0).value =
        (slurm_spank_init ctx remote (pre ++ post) v0).value) ∧
    (∀ a : CStr, strncmp "oom_score_adj=".toList a 14 = 0 ↔ "oom_score_adj=".toList <+: a) ∧
    (slurm_spank_init Context.S_CTX_REMOTE 1 ["oom_score_adj=5000".toList] 0).value = 0 := by
  refine ⟨init_ret, ?_, ?_, strncmp_option, by decide⟩
  · intro a v t h
    rw [init_arg_value, argValue_eq_none_of_bad a v h]
    rfl
  · intro ctx remote pre post a v0 v h
    by_cases hctx : ctx = Context.S_CTX_ALLOCATOR
    · simp [slurm_spank_init, hctx]
    · rw [init_value _ _ _ _ hctx, init_value _ _ _ _ hctx, List.foldl_append, List.foldl_append,
        List.foldl_cons, argValue_eq_none_of_bad a v h]
      rfl

/-- Witness of C4: a foreign argument and an out-of-range value between two
valid arguments change nothing. -/
theorem init_ignores_bad_argument_witness :
    (slurm_spank_init Context.S_CTX_LOCAL 0
      (["oom_score_adj=5".toList] ++ "oom_score_adj=1001".toList :: ["oom_score_adj=7".toList])
      0).value =
    (slurm_spank_init Context.S_CTX_LOCAL 0
      (["oom_score_adj=5".toList] ++ ["oom_score_adj=7".toList]) 0).value :=
  init_ignores_bad_argument.2.2.1 Context.S_CTX_LOCAL 0 ["oom_score_adj=5".toList]
    ["oom_score_adj=7".toList] "oom_score_adj=1001".toList 0 0 (Or.inr (by decide))

/-- C10: starting from the default 0, in every context and for every list of
arguments the value stored after `slurm_spank_init` lies in [-1000, 1000];
`_str2value` either fails and leaves its output untouched, or returns 0 and
stores a value in [-1000, 1000]; a numeral beyond `long` is rejected. -/
theorem init_value_in_range (ctx : Context) (remote : Int) (av : List CStr) (s : CStr)
    (out : Int) :
    (-1000 ≤ (slurm_spank_init ctx remote av 0).value ∧
      (slurm_spank_init ctx remote av 0).value ≤ 1000) ∧
    (_str2value s out = (-1, out) ∨
      ((_str2value s out).1 = 0 ∧ -1000 ≤ (_str2value s out).2 ∧
        (_str2value s out).2 ≤ 1000)) ∧
    _str2value "99999999999999999999".toList out = (-1, out) ∧
    _str2value "-99999999999999999999".toList out = (-1, out) := by
  refine ⟨?_, ?_, ?_, ?_⟩
  · by_cases hctx : ctx = Context.S_CTX_ALLOCATOR
    · simp [slurm_spank_init, hctx]
    · rw [init_value _ _ _ _ hctx]
      exact foldl_argValue_range av 0 (by decide) (by decide)
  · rcases str2value_cases s out with h | ⟨h, _, hlo, hhi⟩
    · exact Or.inl h
    · right
      rw [h]
      exact ⟨rfl, hlo, hhi⟩
  · rw [str2value_out]
    have h : (_str2value "99999999999999999999".toList 0).1 < 0 := by decide
    rw [if_pos h]
  · rw [str2value_out]
    have h : (_str2value "-99999999999999999999".toList 0).1 < 0 := by decide
    rw [if_pos h]

/-! ## Lemmas on formatting -/

theorem natDigits_length (fuel n k : Nat) (hk : 1 ≤ k) (hn : n < 10 ^ k) :
    (natDigits fuel n).length ≤ k := by
  induction fuel generalizing n k with
  | zero => simp [natDigits]
  | succ f ih =>
    by_cases h : n < 10
    · simp [natDigits, h, hk]
    · simp only [natDigits, h, if_false, List.length_append, List.length_singleton]
      obtain ⟨j, rfl⟩ : ∃ j, k = j + 1 := ⟨k - 1, by omega⟩
      have hj : 1 ≤ j := by
        rcases Nat.eq_zero_or_pos j with h0 | h0
        · subst h0
          simp at hn
          omega
        · exact h0
      have hdiv : n / 10 < 10 ^ j := by
        rw [Nat.div_lt_iff_lt_mul (by decide)]
        rw [pow_succ] at hn
        exact hn
      have := ih (n / 10) j hj hdiv
      omega

theorem fmtInt_length (i : Int) (k : Nat) (hk : 1 ≤ k) (h : i.natAbs < 10 ^ k) :
    (fmtInt i).length ≤ k + 1 := by
  have := natDigits_length (i.natAbs + 1) i.natAbs k hk h
  simp only [fmtInt]
  split_ifs
  · simp only [List.length_cons]
    omega
  · omega

theorem file_length (pid : Int) (hlo : LONG_MIN ≤ pid) (hhi : pid ≤ LONG_MAX) :
    (oom_score_adj_file pid).length < 128 := by
  have h : pid.natAbs < 10 ^ 19 := by
    simp only [LONG_MIN, LONG_MAX] at hlo hhi
    norm_num
    omega
  have := fmtInt_length pid 19 (by decide) h
  have h1 : "/proc/".toList.length = 6 := by decide
  have h2 : "/oom_score_adj".toList.length = 14 := by decide
  simp only [oom_score_adj_file, List.length_append, h1, h2]
  omega

theorem value_length (value : Int) (hlo : -2147483648 ≤ value) (hhi : value ≤ 2147483647) :
    (fmtInt value).length < 16 := by
  have h : value.natAbs < 10 ^ 10 := by
    norm_num
    omega
  have := fmtInt_length value 10 (by decide) h
  omega

theorem digitVal_digitChar (d : Nat) (h : d < 10) : digitVal (digitChar d) = d := by
  interval_cases d <;> rfl

theorem isdigit_digitChar (d : Nat) (h : d < 10) : isdigit (digitChar d) = true := by
  interval_cases d <;> rfl

theorem decimalValue_snoc (l : List Char) (c : Char) :
    decimalValue (l ++ [c]) = decimalValue l * 10 + digitVal c := by
  rw [← accDigits_eq, ← accDigits_eq]
  simp [accDigits, List.foldl_append]

/-- The digits printed for a natural number are decimal digits, at least one,
and their positional value is the number. -/
theorem natDigits_spec (fuel n : Nat) (h : n < fuel) :
    (natDigits fuel n).all isdigit = true ∧ natDigits fuel n ≠ [] ∧
      decimalValue (natDigits fuel n) = n := by
  induction fuel generalizing n with
  | zero => omega
  | succ f ih =>
    by_cases hn : n < 10
    · simp only [natDigits, hn, if_true]
      refine ⟨?_, by simp, ?_⟩
      · simp [isdigit_digitChar n hn]
      · simp [decimalValue, digitVal_digitChar n hn]
    · simp only [natDigits, hn, if_false]
      obtain ⟨h1, _, h3⟩ := ih (n / 10) (by omega)
      refine ⟨?_, by simp, ?_⟩
      · rw [List.all_append, h1]
        simp [isdigit_digitChar (n % 10) (Nat.mod_lt _ (by decide))]
      · rw [decimalValue_snoc, h3, digitVal_digitChar (n % 10) (Nat.mod_lt _ (by decide))]
        omega

/-- What `%d` prints matches `^-?[0-9]+$` and has the printed integer as value. -/
theorem fmtInt_spec (i : Int) : matchesNumeral (fmtInt i) = true ∧ numeralValue (fmtInt i) = i := by
  obtain ⟨h1, h2, h3⟩ := natDigits_spec (i.natAbs + 1) i.natAbs (by omega)
  by_cases hi : i < 0
  · simp only [fmtInt, hi, if_true, matchesNumeral, numeralValue, h1, h3]
    refine ⟨?_, by omega⟩
    cases hd : natDigits (i.natAbs + 1) i.natAbs with
    | nil => exact absurd hd h2
    | cons _ _ => rfl
  · simp only [fmtInt, hi, if_false]
    cases hd : natDigits (i.natAbs + 1) i.natAbs with
    | nil => exact absurd hd h2
    | cons c t =>
      rw [hd] at h1 h3
      have hc : isdigit c = true := by
        simp only [List.all_cons, Bool.and_eq_true] at h1
        exact h1.1
      have hm : c ≠ '-' := by
        intro e
        rw [e] at hc
        exact absurd hc (by decide)
      simp only [matchesNumeral, numeralValue, hm, if_false, h1, h3]
      exact ⟨trivial, by omega⟩

/-! ## Lemmas on `_set_oom_score_adj` -/

theorem write_retry_stop (fd : Nat) (buf : CStr) (o : SysResult) (rest : List SysResult)
    (ho : o ≠ SysResult.err EINTR) :
    write_retry fd buf (o :: rest) = some [Event.write fd buf o] := by
  cases o with
  | ok k => rfl
  | err e =>
    have he : e ≠ EINTR := fun h => ho (by rw [h])
    simp [write_retry, he]

theorem write_retry_interrupts (fd : Nat) (buf : CStr) (n : Nat) (o : SysResult)
    (rest : List SysResult) (ho : o ≠ SysResult.err EINTR) :
    write_retry fd buf (List.replicate n (SysResult.err EINTR) ++ o :: rest) =
      some (List.replicate n (Event.write fd buf (SysResult.err EINTR)) ++
        [Event.write fd buf o]) := by
  induction n with
  | zero => simpa using write_retry_stop fd buf o rest ho
  | succ k ih =>
    have hstep : write_retry fd buf (SysResult.err EINTR ::
        (List.replicate k (SysResult.err EINTR) ++ o :: rest)) =
        (write_retry fd buf (List.replicate k (SysResult.err EINTR) ++ o :: rest)).map
          (fun t => Event.write fd buf (SysResult.err EINTR) :: t) := by
      simp only [write_retry, if_true]
    rw [List.replicate_succ, List.cons_append, hstep, ih]
    rfl

theorem set_oom_score_adj_opened (sys : Sys) (pid value : Int) (fd : Nat)
    (hplo : LONG_MIN ≤ pid) (hphi : pid ≤ LONG_MAX)
    (hvlo : -2147483648 ≤ value) (hvhi : value ≤ 2147483647)
    (hopen : sys.open_wronly (oom_score_adj_file pid) = SysResult.ok fd) :
    _set_oom_score_adj sys pid value =
      (write_retry fd (fmtInt value) sys.writes).map (fun t =>
        ((0 : Int), Event.open_wronly (oom_score_adj_file pid) (SysResult.ok fd) ::
          (t ++ [Event.close fd]))) := by
  have h1 : ¬ ((oom_score_adj_file pid).length ≥ 128) := by
    have := file_length pid hplo hphi
    omega
  have h2 : ¬ ((fmtInt value).length ≥ 16) := by
    have := value_length value hvlo hvhi
    omega
  simp only [_set_oom_score_adj, h1, if_false, hopen, h2]
  cases write_retry fd (fmtInt value) sys.writes <;> rfl

/-! ## Claims on `_set_oom_score_adj` and `slurm_spank_task_init_privileged` -/

/-- C5, the code at the failing input: the control file of pid 4242 opens as
descriptor 3 and the only `write` fails with EACCES; `_set_oom_score_adj`
closes the descriptor and returns 0, and the hook returns 0 without logging
an error, although nothing was written. -/
theorem write_failure_returns_success :
    _set_oom_score_adj ⟨fun _ => SysResult.ok 3, [SysResult.err EACCES]⟩ 4242 (-500) =
      some (0, [Event.open_wronly "/proc/4242/oom_score_adj".toList (SysResult.ok 3),
        Event.write 3 "-500".toList (SysResult.err EACCES), Event.close 3]) ∧
    slurm_spank_task_init_privileged ⟨fun _ => SysResult.ok 3, [SysResult.err EACCES]⟩
      ⟨3, 4242⟩ (-500) =
      some (0, [Event.spank_get_item_task_global_id, Event.getpid,
        Event.log Severity.info "set oom_score_adj of task%d (pid %ld) to %ld"
          [FmtArg.d 3, FmtArg.d 4242, FmtArg.d (-500)],
        Event.open_wronly "/proc/4242/oom_score_adj".toList (SysResult.ok 3),
        Event.write 3 "-500".toList (SysResult.err EACCES), Event.close 3]) := by
  decide

/-- C6 as stated fails: with the value 500 and a control file that does not
exist (ENOENT) the hook returns -1 and logs at error severity after the
debug message of the writer. -/
theorem missing_file_fails_task :
    slurm_spank_task_init_privileged ⟨fun _ => SysResult.err ENOENT, []⟩ ⟨3, 4242⟩ 500 =
      some (-1, [Event.spank_get_item_task_global_id, Event.getpid,
        Event.log Severity.info "set oom_score_adj of task%d (pid %ld) to %ld"
          [FmtArg.d 3, FmtArg.d 4242, FmtArg.d 500],
        Event.open_wronly "/proc/4242/oom_score_adj".toList (SysResult.err ENOENT),
        Event.log Severity.debug "%s doesn\'t exist: %m"
          [FmtArg.s "/proc/4242/oom_score_adj".toList],
        Event.log Severity.error "oom_score_adj: unable to set oom_score_adj: %m" []]) := by
  decide

/-- C6, amended: for every non-zero value and every pid, when opening
`/proc/<pid>/oom_score_adj` fails with ENOENT nothing is written, the writer
reports it at debug severity and returns -1, and the hook then logs at error
severity and returns -1. -/
theorem missing_file_returns_failure (sys : Sys) (task : Task) (value : Int)
    (hv : value ≠ 0) (hplo : LONG_MIN ≤ task.pid) (hphi : task.pid ≤ LONG_MAX)
    (hopen : sys.open_wronly (oom_score_adj_file task.pid) = SysResult.err ENOENT) :
    _set_oom_score_adj sys task.pid value =
      some (-1, [Event.open_wronly (oom_score_adj_file task.pid) (SysResult.err ENOENT),
        Event.log Severity.debug "%s doesn\'t exist: %m"
          [FmtArg.s (oom_score_adj_file task.pid)]]) ∧
    slurm_spank_task_init_privileged sys task value =
      some (-1, [Event.spank_get_item_task_global_id, Event.getpid,
        Event.log Severity.info "set oom_score_adj of task%d (pid %ld) to %ld"
          [FmtArg.d task.taskid, FmtArg.d task.pid, FmtArg.d value],
        Event.open_wronly (oom_score_adj_file task.pid) (SysResult.err ENOENT),
        Event.log Severity.debug "%s doesn\'t exist: %m"
          [FmtArg.s (oom_score_adj_file task.pid)],
        Event.log Severity.error "oom_score_adj: unable to set oom_score_adj: %m" []]) := by
  have h1 : ¬ ((oom_score_adj_file task.pid).length ≥ 128) := by
    have := file_length task.pid hplo hphi
    omega
  have hset : _set_oom_score_adj sys task.pid value =
      some (-1, [Event.open_wronly (oom_score_adj_file task.pid) (SysResult.err ENOENT),
        Event.log Severity.debug "%s doesn\'t exist: %m"
          [FmtArg.s (oom_score_adj_file task.pid)]]) := by
    simp only [_set_oom_score_adj, h1, if_false, hopen, if_true]
  refine ⟨hset, ?_⟩
  simp only [slurm_spank_task_init_privileged, hv, if_false, hset]
  rfl

/-- Witness of the amended C6: task 3, pid 4242, value -200, no control file. -/
theorem missing_file_returns_failure_witness :
    (_set_oom_score_adj ⟨fun _ => SysResult.err ENOENT, []⟩ 4242 (-200)).map Prod.fst =
      some (-1) ∧
    (slurm_spank_task_init_privileged ⟨fun _ => SysResult.err ENOENT, []⟩ ⟨3, 4242⟩
      (-200)).map Prod.fst = some (-1) := by
  have h := missing_file_returns_failure ⟨fun _ => SysResult.err ENOENT, []⟩ ⟨3, 4242⟩ (-200)
    (by decide) (by decide) (by decide) rfl
  exact ⟨by rw [h.1]; rfl, by rw [h.2]; rfl⟩

/-- C7: for every pid and every value in [-1000, 1000], when
`/proc/<pid>/oom_score_adj` opens write-only and the write succeeds,
`_set_oom_score_adj` opens exactly that path, issues one write whose bytes are
the base-10 rendering of the value ("500" for 500, "-200" for -200), closes the
descriptor it opened and returns 0; neither formatting check fails. -/
theorem set_oom_score_adj_writes_value (sys : Sys) (pid value : Int) (fd k : Nat)
    (rest : List SysResult)
    (hplo : LONG_MIN ≤ pid) (hphi : pid ≤ LONG_MAX)
    (hvlo : -1000 ≤ value) (hvhi : value ≤ 1000)
    (hopen : sys.open_wronly (oom_score_adj_file pid) = SysResult.ok fd)
    (hwrite : sys.writes = SysResult.ok k :: rest) :
    _set_oom_score_adj sys pid value =
      some (0, [Event.open_wronly ("/proc/".toList ++ fmtInt pid ++ "/oom_score_adj".toList)
          (SysResult.ok fd),
        Event.write fd (fmtInt value) (SysResult.ok k), Event.close fd]) ∧
    (matchesNumeral (fmtInt value) = true ∧ numeralValue (fmtInt value) = value) ∧
    (matchesNumeral (fmtInt pid) = true ∧ numeralValue (fmtInt pid) = pid) ∧
    ((oom_score_adj_file pid).length < 128 ∧ (fmtInt value).length < 16) ∧
    (fmtInt 500 = "500".toList ∧ fmtInt (-200) = "-200".toList) := by
  refine ⟨?_, fmtInt_spec value, fmtInt_spec pid,
    ⟨file_length pid hplo hphi, value_length value (by omega) (by omega)⟩, by decide⟩
  rw [set_oom_score_adj_opened sys pid value fd hplo hphi (by omega) (by omega) hopen, hwrite]
  rfl

/-- Witness of C7: pid 4242, value 500, descriptor 3, a write of 3 bytes. -/
theorem set_oom_score_adj_writes_value_witness :
    _set_oom_score_adj ⟨fun _ => SysResult.ok 3, [SysResult.ok 3]⟩ 4242 500 =
      some (0, [Event.open_wronly "/proc/4242/oom_score_adj".toList (SysResult.ok 3),
        Event.write 3 "500".toList (SysResult.ok 3), Event.close 3]) := by
  have h := (set_oom_score_adj_writes_value ⟨fun _ => SysResult.ok 3, [SysResult.ok 3]⟩
    4242 500 3 3 [] (by decide) (by decide) (by decide) (by decide) rfl rfl).1
  rw [h]
  decide

/-- C8: with the value 0 the hook returns 0 and does nothing at all (no
identity query, no log, no open, write or close), whatever the system and the
task; 0 is the value after an init without arguments or with invalid ones. -/
theorem task_init_noop_on_default (sys : Sys) (task : Task) (ctx : Context) (remote : Int) :
    slurm_spank_task_init_privileged sys task 0 = some (0, []) ∧
    (slurm_spank_init ctx remote [] 0).value = 0 ∧
    (slurm_spank_init ctx remote ["oom_score_adj=5000".toList, "abc".toList] 0).value = 0 ∧
    slurm_spank_task_init_privileged sys task
      (slurm_spank_init ctx remote ["oom_score_adj=5000".toList, "abc".toList] 0).value =
      some (0, []) := by
  have h1 : (slurm_spank_init ctx remote [] 0).value = 0 := by
    simp only [slurm_spank_init]
    split_ifs <;> rfl
  have h2 : (slurm_spank_init ctx remote ["oom_score_adj=5000".toList, "abc".toList] 0).value
      = 0 := by
    by_cases hctx : ctx = Context.S_CTX_ALLOCATOR
    · simp [slurm_spank_init, hctx]
    · rw [init_value _ _ _ _ hctx]
      decide
  refine ⟨rfl, h1, h2, ?_⟩
  rw [h2]
  rfl

/-- C9: for every n, when `write` fails n times with EINTR and then succeeds
(returning a count k), the retry loop ends after exactly n + 1 calls, each
offering the whole decimal string, only the last one transferring data, and
`_set_oom_score_adj` closes the descriptor and returns 0; in general the loop
repeats only on EINTR and stops at the first call that ends otherwise, be it a
success or another error. -/
theorem write_retried_on_eintr (sys : Sys) (pid value : Int) (fd n k : Nat) (o : SysResult)
    (rest rest2 : List SysResult)
    (hplo : LONG_MIN ≤ pid) (hphi : pid ≤ LONG_MAX)
    (hvlo : -2147483648 ≤ value) (hvhi : value ≤ 2147483647)
    (hopen : sys.open_wronly (oom_score_adj_file pid) = SysResult.ok fd)
    (hwrite : sys.writes = List.replicate n (SysResult.err EINTR) ++ SysResult.ok k :: rest)
    (ho : o ≠ SysResult.err EINTR) :
    _set_oom_score_adj sys pid value =
      some (0, Event.open_wronly (oom_score_adj_file pid) (SysResult.ok fd) ::
        (List.replicate n (Event.write fd (fmtInt value) (SysResult.err EINTR)) ++
          [Event.write fd (fmtInt value) (SysResult.ok k), Event.close fd])) ∧
    write_retry fd (fmtInt value) sys.writes =
      some (List.replicate n (Event.write fd (fmtInt value) (SysResult.err EINTR)) ++
        [Event.write fd (fmtInt value) (SysResult.ok k)]) ∧
    (List.replicate n (Event.write fd (fmtInt value) (SysResult.err EINTR)) ++
        [Event.write fd (fmtInt value) (SysResult.ok k)]).length = n + 1 ∧
    write_retry fd (fmtInt value) (List.replicate n (SysResult.err EINTR) ++ o :: rest2) =
      some (List.replicate n (Event.write fd (fmtInt value) (SysResult.err EINTR)) ++
        [Event.write fd (fmtInt value) o]) := by
  have hr := write_retry_interrupts fd (fmtInt value) n (SysResult.ok k) rest (by simp)
  rw [← hwrite] at hr
  refine ⟨?_, hr, by simp, write_retry_interrupts fd (fmtInt value) n o rest2 ho⟩
  rw [set_oom_score_adj_opened sys pid value fd hplo hphi hvlo hvhi hopen, hr]
  simp

/-- Witness of C9: two interruptions, then a write of 4 bytes. -/
theorem write_retried_on_eintr_witness :
    _set_oom_score_adj
      ⟨fun _ => SysResult.ok 3, [SysResult.err EINTR, SysResult.err EINTR, SysResult.ok 4]⟩
      4242 (-200) =
      some (0, [Event.open_wronly "/proc/4242/oom_score_adj".toList (SysResult.ok 3),
        Event.write 3 "-200".toList (SysResult.err EINTR),
        Event.write 3 "-200".toList (SysResult.err EINTR),
        Event.write 3 "-200".toList (SysResult.ok 4), Event.close 3]) := by
  have h := (write_retried_on_eintr
    ⟨fun _ => SysResult.ok 3, [SysResult.err EINTR, SysResult.err EINTR, SysResult.ok 4]⟩
    4242 (-200) 3 2 4 (SysResult.err EACCES) [] [] (by decide) (by decide) (by decide)
    (by decide) rfl rfl (by decide)).1
  rw [h]
  decide

end OomScoreAdj
